import Mathlib

/-!
Shallow embedding of `server.js` (Wichteln, a Secret-Santa server).

The embedding has three layers, mirroring the source:
* a typed core for the derangement generator `createDerangement` and the
  validator `validateAssignments` (the assignment object is an association
  list with JS-object insertion/overwrite semantics);
* a `Json` layer for everything that flows through `state.json`
  (`loadState`, `saveState`, `initState`), so that corrupt or wrongly
  shaped persisted documents are representable;
* the four HTTP handlers (`/api/state`, `/api/draw`, `/api/reset`,
  `/api/debug-assignments`) as functions threading the persisted store
  explicitly.

`Math.random()`-driven choices are modelled by an oracle
`g : Nat → Nat → Nat` (attempt number, loop index); the drawn index is
`g a i % (i + 1)`, which ranges over exactly the values
`Math.floor(Math.random() * (i + 1))` can take.
-/

/-- JSON values as produced by `JSON.parse` (numbers modelled as integers;
no claim depends on float semantics). -/
inductive Json where
  | null
  | bool (b : Bool)
  | num (n : Int)
  | str (s : String)
  | arr (elems : List Json)
  | obj (fields : List (String × Json))

/-- JS truthiness of a JSON value. -/
def jsTruthy : Json → Bool
  | .null => false
  | .bool b => b
  | .num n => n != 0
  | .str s => s != ""
  | .arr _ => true
  | .obj _ => true

/-- JS truthiness of a possibly-`undefined` value (`none` = `undefined`). -/
def optTruthy : Option Json → Bool
  | none => false
  | some v => jsTruthy v

/-- Primitive JSON values (compared by value in JS collections; arrays and
objects are compared by reference). -/
def isPrimitiveJson : Json → Bool
  | .arr _ => false
  | .obj _ => false
  | _ => true

/-- JS SameValueZero comparison (used by `Set` and `Array.prototype.includes`)
for values coming from a parsed JSON document: primitives compare by value;
distinct array/object literals are distinct heap references, so they never
compare equal. -/
def jsSameValueZero : Json → Json → Bool
  | .null, .null => true
  | .bool a, .bool b => a == b
  | .num a, .num b => a == b
  | .str a, .str b => a == b
  | _, _ => false

/-- JS strict equality `v === s` against a string `s`. -/
def jsStrEq (v : Json) (s : String) : Bool :=
  match v with
  | .str t => t == s
  | _ => false

/-- Property read `v[k]` (`none` = `undefined`): objects by key (first match;
parsed objects have unique keys), arrays and strings by numeric index.  The
program only reads fixed field names and member names, never `"length"` or
method names, so prototype properties are not modelled. -/
def jsGetProp (v : Json) (k : String) : Option Json :=
  match v with
  | .obj fields => (fields.find? (fun p => p.1 == k)).map (fun p => p.2)
  | .arr xs => k.toNat?.bind (fun i => xs[i]?)
  | .str s => k.toNat?.bind (fun i => (s.data[i]?).map (fun c => Json.str (String.mk [c])))
  | _ => none

/-- `Object.keys(v)` for non-`null` values (the callers guard truthiness,
so `v` is never `null` where this is used). -/
def jsKeys : Json → List String
  | .obj fields => fields.map (fun p => p.1)
  | .arr xs => (List.range xs.length).map toString
  | .str s => (List.range s.length).map toString
  | _ => []

/-- `Object.values(v)` for non-`null` values. -/
def jsValues : Json → List Json
  | .obj fields => fields.map (fun p => p.2)
  | .arr xs => xs
  | .str s => s.data.map (fun c => Json.str (String.mk [c]))
  | _ => []

/-- `new Set(values).size`: the head of the list is counted once and all later
SameValueZero-equal occurrences are dropped.  Array/object elements of a parsed
document are pairwise-distinct references, so they never collapse.  The fuel
argument (initialized to the list length, which the filtered tail never
exceeds) makes the recursion structural. -/
def jsSetSizeAux : Nat → List Json → Nat
  | _, [] => 0
  | 0, _ :: _ => 0
  | fuel + 1, v :: rest => 1 + jsSetSizeAux fuel (rest.filter (fun w => !jsSameValueZero v w))

def jsSetSize (values : List Json) : Nat :=
  jsSetSizeAux values.length values

/-- The element list of `new Set(x)`: `undefined` and `null` give an empty
set, arrays give their elements, strings their characters; other values are
not iterable (`TypeError`, modelled as `none`). -/
def jsSetElems : Option Json → Option (List Json)
  | none => some []
  | some .null => some []
  | some (.arr xs) => some xs
  | some (.str s) => some (s.data.map (fun c => Json.str (String.mk [c])))
  | some _ => none

/-- JS object write `o[k] = v`: update in place if the key exists, else
append the new key. -/
def objInsert {α : Type} (fields : List (String × α)) (k : String) (v : α) :
    List (String × α) :=
  if fields.any (fun p => p.1 == k) then
    fields.map (fun p => if p.1 == k then (k, v) else p)
  else fields ++ [(k, v)]

/-- The fixed participant list `NAMES` from `server.js`. -/
def NAMES : List String :=
  ["Anni", "Ben", "Beni", "Daniel", "Elisa", "Till",
   "Dustin", "Johann", "Lara", "Marvin", "Paul"]

/-- The distinct errors thrown by the core functions (one constructor per
distinct `Error` message in the source), plus the `TypeError` raised by JS
itself on `Object.keys(null)`. -/
inductive Err where
  | tooFewNames        -- "Zu wenige Namen für Wichteln."
  | generationFailed   -- "Konnte keinen gültigen Wichtel-Plan erzeugen."
  | keyCountMismatch   -- "Ungültige Zuordnung: Anzahl Schlüssel passt nicht."
  | valueCountMismatch -- "Ungültige Zuordnung: Anzahl Werte passt nicht."
  | missingGiftee (name : String) -- "Ungültige Zuordnung: Kein Wichtel für <name>."
  | selfAssigned (name : String)  -- "Ungültige Zuordnung: <name> beschenkt sich selbst."
  | duplicateGiftee    -- "Ungültige Zuordnung: Ein Name wird mehrfach beschenkt."
  | typeError          -- TypeError thrown by the runtime
deriving DecidableEq

/-- The destructuring swap `[perm[i], perm[j]] = [perm[j], perm[i]]`. -/
def listSwap (l : List String) (i j : Nat) : List String :=
  (l.set i (l.getD j "")).set j (l.getD i "")

/-- The Fisher-Yates loop `for (let i = perm.length - 1; i > 0; i--)`,
with `j = g i % (i + 1)` standing for `Math.floor(Math.random() * (i + 1))`.
The first argument is the loop counter `i`. -/
def fyLoop (g : Nat → Nat) : Nat → List String → List String
  | 0, perm => perm
  | k + 1, perm => fyLoop g k (listSwap perm (k + 1) (g (k + 1) % (k + 2)))

/-- `perm.some((name, index) => name === names[index])`: does the shuffled
list have a fixed point relative to the original order?  (`perm` always has
the same length as `names` where this is called.) -/
def hasFixedPoint (perm names : List String) : Bool :=
  (perm.zip names).any (fun p => p.1 == p.2)

/-- The `do … while` retry loop of `createDerangement`.  `attempts` is the
count of completed attempts so far; `fuel` is a structural-recursion bound
(the loop itself stops after `10000` attempts, so with `fuel = 10001` the
fuel never runs out first).  Note the source increments `attempts`, shuffles,
and throws once `attempts > 10000` *before* testing the fixed-point
condition — the model does the same. -/
def derangeLoop (names : List String) (g : Nat → Nat → Nat) :
    Nat → Nat → Except Err (List String)
  | _, 0 => .error .generationFailed
  | attempts, fuel + 1 =>
    let a := attempts + 1
    let perm := fyLoop (g a) (names.length - 1) names
    if 10000 < a then .error .generationFailed
    else if hasFixedPoint perm names then derangeLoop names g a fuel
    else .ok perm

/-- The loop `for (i…) assignments[names[i]] = perm[i]` building the JS
object (object writes overwrite on duplicate keys).  `perm` always has the
same length as `names` at the call site, so paired recursion covers the
loop bound `i < names.length`. -/
def buildAssignmentsAux :
    List (String × String) → List String → List String → List (String × String)
  | acc, name :: names, p :: perm => buildAssignmentsAux (objInsert acc name p) names perm
  | acc, _, _ => acc

def buildAssignments (names perm : List String) : List (String × String) :=
  buildAssignmentsAux [] names perm

/-- JS object read `assignments[k]` on the typed association list. -/
def lookupA (assignments : List (String × String)) (k : String) : Option String :=
  (assignments.find? (fun p => p.1 == k)).map (fun p => p.2)

/-- The `for (const name of names)` loop of `validateAssignments`:
`!assignments[name]` (undefined or empty string) throws the missing-giftee
error, `assignments[name] === name` throws the self-assignment error. -/
def checkMembers (assignments : List (String × String)) : List String → Except Err Unit
  | [] => .ok ()
  | name :: rest =>
    match lookupA assignments name with
    | none => .error (.missingGiftee name)
    | some v =>
      if v = "" then .error (.missingGiftee name)
      else if v = name then .error (.selfAssigned name)
      else checkMembers assignments rest

/-- `validateAssignments(assignments, names)`: key count, value count, the
per-member loop, then the duplicate-giftee check via `new Set(values)`. -/
def validateAssignments (assignments : List (String × String)) (names : List String) :
    Except Err Unit :=
  let keys := assignments.map (fun p => p.1)
  if keys.length ≠ names.length then .error .keyCountMismatch
  else
    let values := assignments.map (fun p => p.2)
    if values.length ≠ names.length then .error .valueCountMismatch
    else
      match checkMembers assignments names with
      | .error e => .error e
      | .ok _ =>
        if values.dedup.length ≠ values.length then .error .duplicateGiftee
        else .ok ()

/-- `createDerangement(names)` with the random oracle `g`. -/
def createDerangement (names : List String) (g : Nat → Nat → Nat) :
    Except Err (List (String × String)) :=
  if names.length < 2 then .error .tooFewNames
  else if names.length = 2 then
    .ok (objInsert (objInsert [] (names.getD 0 "") (names.getD 1 ""))
          (names.getD 1 "") (names.getD 0 ""))
  else
    match derangeLoop names g 0 10001 with
    | .error e => .error e
    | .ok perm =>
      let assignments := buildAssignments names perm
      match validateAssignments assignments names with
      | .error e => .error e
      | .ok _ => .ok assignments

/-- `validateAssignments` as it runs on a value taken from a parsed
`state.json` document (values are arbitrary JSON).  `Object.keys(null)`
throws a `TypeError`; callers guard with truthiness, and `initState`
catches every throw from here anyway. -/
def jsonCheckMembers (assignments : Json) : List String → Except Err Unit
  | [] => .ok ()
  | name :: rest =>
    match jsGetProp assignments name with
    | none => .error (.missingGiftee name)
    | some v =>
      if !jsTruthy v then .error (.missingGiftee name)
      else if jsStrEq v name then .error (.selfAssigned name)
      else jsonCheckMembers assignments rest

/-- The check sequence of `validateAssignments` on a non-`null` JSON value
(key count, value count, per-member loop, duplicate values). -/
def jsonValidateCore (a : Json) (names : List String) : Except Err Unit :=
  let keys := jsKeys a
  if keys.length ≠ names.length then .error .keyCountMismatch
  else
    let values := jsValues a
    if values.length ≠ names.length then .error .valueCountMismatch
    else
      match jsonCheckMembers a names with
      | .error e => .error e
      | .ok _ =>
        if jsSetSize values ≠ values.length then .error .duplicateGiftee
        else .ok ()

def jsonValidateAssignments (assignments : Json) (names : List String) :
    Except Err Unit :=
  match assignments with
  | .null => .error .typeError
  | a => jsonValidateCore a names

/-- The persisted store `state.json`: `none` = no file;
`some none` = a file `JSON.parse` rejects; `some (some doc)` = a file
parsing to `doc`. -/
def Store : Type := Option (Option Json)

/-- `loadState()`: `null` for a missing file, `null` (via the `catch`)
for an unparsable one, otherwise the parsed document. -/
def loadState : Store → Option Json
  | none => none
  | some none => none
  | some (some doc) => some doc

/-- `saveState(state)`: overwrite the file with the serialized document
(always re-parsable). -/
def saveState (doc : Json) : Store :=
  some (some doc)

/-- The JSON encoding of a generated assignment object. -/
def encodeAssignments (a : List (String × String)) : Json :=
  .obj (a.map (fun p => (p.1, Json.str p.2)))

/-- The fresh state object `{ names: NAMES, assignments, revealed: [] }`. -/
def mkStateDoc (a : List (String × String)) : Json :=
  .obj [("names", .arr (NAMES.map Json.str)),
        ("assignments", encodeAssignments a),
        ("revealed", .arr [])]

/-- The fresh-round body of `initState` (it appears verbatim in both
branches of the source): generate, build the state object, persist it. -/
def freshRound (g : Nat → Nat → Nat) : Except Err (Json × Store) :=
  match createDerangement NAMES g with
  | .error e => .error e
  | .ok assignments =>
    let state := mkStateDoc assignments
    .ok (state, saveState state)

/-- `initState(forceNew)`: returns the current state document and the store
as left on disk.  The cascade of matches implements
`if (!state || !state.assignments)`; the `try { validateAssignments … }
catch { regenerate }` recovers from every validation throw. -/
def initState (g : Nat → Nat → Nat) (forceNew : Bool) (store : Store) :
    Except Err (Json × Store) :=
  match (if forceNew then none else loadState store) with
  | none => freshRound g
  | some state =>
    if !jsTruthy state then freshRound g
    else
      match jsGetProp state "assignments" with
      | none => freshRound g
      | some aJson =>
        if !jsTruthy aJson then freshRound g
        else
          match jsonValidateAssignments aJson NAMES with
          | .ok _ => .ok (state, store)
          | .error _ => freshRound g

/-- The response body of `getPublicState` (note: no `assignments` field
exists in this record type). -/
structure PublicState where
  names : List Json
  availableNames : List Json
  revealed : Option Json

/-- `getPublicState()`: ensure a round, build `new Set(state.revealed)`
(throwing on non-iterables), and `state.names.filter(n => !revealedSet.has(n))`
(throwing unless `state.names` is an array).  The store is returned alongside
because `initState` may have persisted a fresh round before a later throw. -/
def getPublicState (g : Nat → Nat → Nat) (store : Store) :
    Except Err PublicState × Store :=
  match initState g false store with
  | .error e => (.error e, store)
  | .ok (state, store₁) =>
    match jsSetElems (jsGetProp state "revealed") with
    | none => (.error .typeError, store₁)
    | some revealedSet =>
      match jsGetProp state "names" with
      | some (.arr ns) =>
        let availableNames :=
          ns.filter (fun n => !(revealedSet.any (fun w => jsSameValueZero w n)))
        (.ok ⟨ns, availableNames, jsGetProp state "revealed"⟩, store₁)
      | _ => (.error .typeError, store₁)

/-- `state.revealed.includes(name)`: works on arrays (SameValueZero) and on
strings (substring test); any other receiver throws. -/
def jsIncludesName (revealed : Option Json) (name : String) : Option Bool :=
  match revealed with
  | some (.arr xs) => some (xs.any (fun w => jsSameValueZero w (.str name)))
  | some (.str s) => some (decide (name.data <:+: s.data))
  | _ => none

/-- `state.revealed.push(name); saveState(state)`: mutate the `revealed`
array inside the state object (throws unless it is an array). -/
def pushRevealed (state : Json) (name : String) : Option Json :=
  match state with
  | .obj fields =>
    match jsGetProp (.obj fields) "revealed" with
    | some (.arr xs) => some (.obj (objInsert fields "revealed" (.arr (xs ++ [.str name]))))
    | _ => none
  | _ => none

/-- Outcomes of `POST /api/draw`: the 200 body, the two 400 bodies, and the
500s express produces for uncaught throws (`Err` from `initState`,
`TypeError` from operating on malformed state fields). -/
inductive DrawResult where
  | drawn (name : String) (giftee : Json) (alreadyRevealed : Bool)
  | invalidName
  | noAssignment
  | thrown (e : Err)
  | typeErr

/-- Is this JSON value `null`?  (Reading a property of `null` throws.) -/
def jsIsNull : Json → Bool
  | .null => true
  | _ => false

/-- The `POST /api/draw` handler. -/
def drawHandler (g : Nat → Nat → Nat) (name : String) (store : Store) :
    DrawResult × Store :=
  if name == "" || !(NAMES.contains name) then (.invalidName, store)
  else
    match initState g false store with
    | .error e => (.thrown e, store)
    | .ok (state, store₁) =>
      match jsGetProp state "assignments" with
      | none => (.typeErr, store₁)       -- reading a property of undefined throws
      | some aJson =>
        if jsIsNull aJson then (.typeErr, store₁) -- reading a property of null throws
        else match jsGetProp aJson name with
          | none => (.noAssignment, store₁)
          | some giftee =>
            if !jsTruthy giftee then (.noAssignment, store₁)
            else
              match jsIncludesName (jsGetProp state "revealed") name with
              | none => (.typeErr, store₁)
              | some alreadyRevealed =>
                if alreadyRevealed then (.drawn name giftee alreadyRevealed, store₁)
                else
                  match pushRevealed state name with
                  | none => (.typeErr, store₁)
                  | some state₂ => (.drawn name giftee alreadyRevealed, saveState state₂)

/-- Outcomes of `POST /api/reset`. -/
inductive ResetResult where
  | reset
  | failed (e : Err)

/-- The `POST /api/reset` handler: `initState(true)`. -/
def resetHandler (g : Nat → Nat → Nat) (store : Store) : ResetResult × Store :=
  match initState g true store with
  | .error e => (.failed e, store)
  | .ok (_, store₁) => (.reset, store₁)

/-- Outcomes of `GET /api/debug-assignments`. -/
inductive DebugResult where
  | dump (assignments : Option Json)
  | failed (e : Err)

/-- The `GET /api/debug-assignments` handler. -/
def debugHandler (g : Nat → Nat → Nat) (store : Store) : DebugResult × Store :=
  match initState g false store with
  | .error e => (.failed e, store)
  | .ok (state, store₁) => (.dump (jsGetProp state "assignments"), store₁)

/-- The derangement property of the spec: every member appears exactly once
as a key, exactly once as a value, and no entry maps a name to itself. -/
def isDerangement (a : List (String × String)) (names : List String) : Prop :=
  (∀ m ∈ names, (a.map (fun p => p.1)).count m = 1) ∧
  (∀ m ∈ names, (a.map (fun p => p.2)).count m = 1) ∧
  (∀ p ∈ a, p.1 ≠ p.2)

/-- A persisted document `initState` accepts as-is: truthy, with a truthy
`assignments` field that passes validation against `NAMES`. -/
def GoodDoc (doc : Json) : Prop :=
  jsTruthy doc = true ∧
  ∃ aJson, jsGetProp doc "assignments" = some aJson ∧ jsTruthy aJson = true ∧
    jsonValidateAssignments aJson NAMES = .ok ()

/-- The elements of the `revealed` array of the stored document (empty for
missing or malformed stores). -/
def revealedItems (store : Store) : List Json :=
  match store with
  | some (some doc) =>
    match jsGetProp doc "revealed" with
    | some (.arr xs) => xs
    | _ => []
  | _ => []

/-- The length of the stored `revealed` array. -/
def revealedCount (store : Store) : Nat :=
  (revealedItems store).length

/-! ### Permutation facts about the Fisher-Yates shuffle -/

theorem listSet_getD_self (l : List String) : ∀ i, i < l.length → l.set i (l.getD i "") = l := by
  induction l with
  | nil => intro i h; simp at h
  | cons a t ih =>
    intro i h
    cases i with
    | zero => simp
    | succ n =>
      simp only [List.set_cons_succ, List.getD_cons_succ]
      rw [ih n (by simpa using h)]

theorem getD_cons_set_perm (t : List String) :
    ∀ m a, m < t.length → List.Perm (t.getD m "" :: t.set m a) (a :: t) := by
  induction t with
  | nil => intro m a h; simp at h
  | cons b t ih =>
    intro m a h
    cases m with
    | zero =>
      simp only [List.getD_cons_zero, List.set_cons_zero]
      exact List.Perm.swap a b t
    | succ n =>
      simp only [List.getD_cons_succ, List.set_cons_succ]
      refine List.Perm.trans (List.Perm.swap b (t.getD n "") (t.set n a)) ?_
      refine List.Perm.trans (List.Perm.cons b (ih n a (by simpa using h))) ?_
      exact List.Perm.swap a b t

theorem listSwap_perm (l : List String) :
    ∀ i j, i < l.length → j < l.length → List.Perm (listSwap l i j) l := by
  induction l with
  | nil => intro i j h _; simp at h
  | cons a t ih =>
    intro i j hi hj
    cases i with
    | zero =>
      cases j with
      | zero =>
        simp only [listSwap, List.getD_cons_zero, List.set_cons_zero]
        exact List.Perm.refl _
      | succ m =>
        simp only [listSwap, List.getD_cons_zero, List.getD_cons_succ,
          List.set_cons_zero, List.set_cons_succ]
        exact getD_cons_set_perm t m a (by simpa using hj)
    | succ k =>
      cases j with
      | zero =>
        simp only [listSwap, List.getD_cons_zero, List.getD_cons_succ,
          List.set_cons_succ, List.set_cons_zero]
        exact getD_cons_set_perm t k a (by simpa using hi)
      | succ m =>
        simp only [listSwap, List.getD_cons_succ, List.set_cons_succ]
        exact List.Perm.cons a (ih k m (by simpa using hi) (by simpa using hj))

theorem fyLoop_perm (g : Nat → Nat) :
    ∀ k (l : List String), k < l.length → List.Perm (fyLoop g k l) l := by
  intro k
  induction k with
  | zero => intro l _; exact List.Perm.refl _
  | succ n ih =>
    intro l h
    have hj : g (n + 1) % (n + 2) < l.length :=
      Nat.lt_of_le_of_lt (Nat.le_of_lt_succ (Nat.mod_lt _ (Nat.succ_pos _))) h
    have hswap := listSwap_perm l (n + 1) (g (n + 1) % (n + 2)) h hj
    have hlen : n < (listSwap l (n + 1) (g (n + 1) % (n + 2))).length := by
      rw [hswap.length_eq]
      exact Nat.lt_of_succ_lt h
    exact (ih _ hlen).trans hswap

theorem fyLoop_length (g : Nat → Nat) (k : Nat) (l : List String) (h : k < l.length) :
    (fyLoop g k l).length = l.length :=
  (fyLoop_perm g k l h).length_eq

/-! ### Characterizing the retry loop and the object-building loop -/

theorem derangeLoop_ok (names : List String) (g : Nat → Nat → Nat) :
    ∀ fuel attempts perm, derangeLoop names g attempts fuel = .ok perm →
      ∃ a, perm = fyLoop (g a) (names.length - 1) names ∧
        hasFixedPoint perm names = false := by
  intro fuel
  induction fuel with
  | zero => intro attempts perm h; exact absurd h (by simp [derangeLoop])
  | succ n ih =>
    intro attempts perm h
    simp only [derangeLoop] at h
    by_cases h1 : 10000 < attempts + 1
    · rw [if_pos h1] at h; exact absurd h (by simp)
    · rw [if_neg h1] at h
      by_cases h2 :
          hasFixedPoint (fyLoop (g (attempts + 1)) (names.length - 1) names) names = true
      · rw [if_pos h2] at h; exact ih _ _ h
      · rw [if_neg h2] at h
        cases h
        refine ⟨attempts + 1, rfl, ?_⟩
        revert h2
        cases hasFixedPoint (fyLoop (g (attempts + 1)) (names.length - 1) names) names <;> simp

theorem objInsert_of_not_mem {α : Type} (fields : List (String × α)) (k : String) (v : α)
    (h : ∀ p ∈ fields, p.1 ≠ k) : objInsert fields k v = fields ++ [(k, v)] := by
  have hany : fields.any (fun p => p.1 == k) = false := by
    rw [List.any_eq_false]
    intro p hp
    simpa using h p hp
  unfold objInsert
  rw [hany]
  simp

theorem buildAssignmentsAux_eq_zip :
    ∀ (names perm : List String) (acc : List (String × String)),
      names.Nodup → (∀ n ∈ names, ∀ p ∈ acc, p.1 ≠ n) →
      buildAssignmentsAux acc names perm = acc ++ names.zip perm := by
  intro names
  induction names with
  | nil => intro perm acc _ _; cases perm <;> simp [buildAssignmentsAux]
  | cons name rest ih =>
    intro perm acc hnd hfresh
    cases perm with
    | nil => simp [buildAssignmentsAux]
    | cons p ps =>
      rw [buildAssignmentsAux,
        objInsert_of_not_mem _ _ _ (fun q hq => hfresh name (by simp) q hq),
        ih ps (acc ++ [(name, p)]) (List.Nodup.of_cons hnd) ?_]
      · simp
      · intro n hn q hq
        rcases List.mem_append.mp hq with hq | hq
        · exact hfresh n (List.mem_cons_of_mem _ hn) q hq
        · have : q = (name, p) := by simpa using hq
          subst this
          intro he
          exact (List.nodup_cons.mp hnd).1 (by simpa [← he] using hn)

theorem buildAssignments_eq_zip (names perm : List String) (h : names.Nodup) :
    buildAssignments names perm = names.zip perm := by
  simpa [buildAssignments] using buildAssignmentsAux_eq_zip names perm [] h (by simp)

/-! ### Characterizing the validator -/

theorem checkMembers_ok_iff (assignments : List (String × String)) :
    ∀ names, checkMembers assignments names = .ok () ↔
      ∀ m ∈ names, ∃ v, lookupA assignments m = some v ∧ v ≠ "" ∧ v ≠ m := by
  intro names
  induction names with
  | nil => simp [checkMembers]
  | cons name rest ih =>
    simp only [checkMembers]
    cases hl : lookupA assignments name with
    | none =>
      constructor
      · intro h; exact absurd h (by simp)
      · intro h
        obtain ⟨v, hv, -⟩ := h name (by simp)
        rw [hl] at hv; cases hv
    | some v =>
      dsimp only
      by_cases hv1 : v = ""
      · rw [if_pos hv1]
        constructor
        · intro h; exact absurd h (by simp)
        · intro h
          obtain ⟨w, hw, hw1, -⟩ := h name (by simp)
          rw [hl] at hw
          cases hw
          exact absurd hv1 hw1
      · rw [if_neg hv1]
        by_cases hv2 : v = name
        · rw [if_pos hv2]
          constructor
          · intro h; exact absurd h (by simp)
          · intro h
            obtain ⟨w, hw, -, hw2⟩ := h name (by simp)
            rw [hl] at hw
            cases hw
            exact absurd hv2 hw2
        · rw [if_neg hv2]
          rw [ih]
          constructor
          · intro h m hm
            rcases List.mem_cons.mp hm with rfl | hm
            · exact ⟨v, hl, hv1, hv2⟩
            · exact h m hm
          · intro h m hm
            exact h m (List.mem_cons_of_mem _ hm)

theorem validateAssignments_ok_iff (assignments : List (String × String)) (names : List String) :
    validateAssignments assignments names = .ok () ↔
      ((assignments.map (fun p => p.1)).length = names.length ∧
       (assignments.map (fun p => p.2)).length = names.length ∧
       (∀ m ∈ names, ∃ v, lookupA assignments m = some v ∧ v ≠ "" ∧ v ≠ m) ∧
       (assignments.map (fun p => p.2)).dedup.length =
         (assignments.map (fun p => p.2)).length) := by
  unfold validateAssignments
  by_cases h1 : (assignments.map (fun p => p.1)).length = names.length
  · rw [if_neg (by simpa using h1)]
    by_cases h2 : (assignments.map (fun p => p.2)).length = names.length
    · rw [if_neg (by simpa using h2)]
      cases hc : checkMembers assignments names with
      | error e =>
        constructor
        · intro h; exact absurd h (by simp)
        · intro h
          have := (checkMembers_ok_iff assignments names).mpr h.2.2.1
          rw [hc] at this; cases this
      | ok u =>
        cases u
        have hmem := (checkMembers_ok_iff assignments names).mp hc
        by_cases h4 : (assignments.map (fun p => p.2)).dedup.length =
            (assignments.map (fun p => p.2)).length
        · rw [if_neg (by simpa using h4)]
          constructor
          · intro _; exact ⟨h1, h2, hmem, h4⟩
          · intro _; rfl
        · rw [if_pos (by simpa using h4)]
          constructor
          · intro h; exact absurd h (by simp)
          · intro h; exact absurd h.2.2.2 h4
    · rw [if_pos (by simpa using h2)]
      constructor
      · intro h; exact absurd h (by simp)
      · intro h; exact absurd h.2.1 h2
  · rw [if_pos (by simpa using h1)]
    constructor
    · intro h; exact absurd h (by simp)
    · intro h; exact absurd h.1 h1

/-! ### `createDerangement` produces derangements -/

theorem createDerangement_two (names : List String) (g : Nat → Nat → Nat)
    (a : List (String × String)) (h2 : names.length = 2)
    (h : createDerangement names g = .ok a) :
    ∃ n0 n1, names = [n0, n1] ∧
      a = objInsert (objInsert [] n0 n1) n1 n0 := by
  match names, h2 with
  | [n0, n1], _ =>
    refine ⟨n0, n1, rfl, ?_⟩
    unfold createDerangement at h
    simp only [List.length_cons, List.length_nil] at h
    norm_num at h
    simpa [List.getD] using h.symm

theorem createDerangement_big (names : List String) (g : Nat → Nat → Nat)
    (a : List (String × String)) (hlt : ¬names.length < 2) (h2 : names.length ≠ 2)
    (h : createDerangement names g = .ok a) :
    ∃ perm, a = buildAssignments names perm ∧
      validateAssignments a names = .ok () ∧
      List.Perm perm names ∧ hasFixedPoint perm names = false := by
  unfold createDerangement at h
  rw [if_neg hlt, if_neg h2] at h
  cases hdl : derangeLoop names g 0 10001 with
  | error e => rw [hdl] at h; exact absurd h (by simp)
  | ok perm =>
    rw [hdl] at h
    dsimp only at h
    obtain ⟨att, hperm, hnfp⟩ := derangeLoop_ok names g 10001 0 perm hdl
    have hlen3 : 3 ≤ names.length := by omega
    have hpp : List.Perm perm names := by
      rw [hperm]; exact fyLoop_perm _ _ _ (by omega)
    cases hv : validateAssignments (buildAssignments names perm) names with
    | error e => rw [hv] at h; exact absurd h (by simp)
    | ok u =>
      cases u
      rw [hv] at h
      cases h
      exact ⟨perm, rfl, hv, hpp, hnfp⟩

theorem createDerangement_isDerangement (names : List String) (g : Nat → Nat → Nat)
    (a : List (String × String)) (hnd : names.Nodup)
    (h : createDerangement names g = .ok a) : isDerangement a names := by
  by_cases hlt : names.length < 2
  · unfold createDerangement at h
    rw [if_pos hlt] at h
    exact absurd h (by simp)
  by_cases h2 : names.length = 2
  · obtain ⟨n0, n1, rfl, ha⟩ := createDerangement_two names g a h2 h
    have hne : n0 ≠ n1 := by simpa using (List.nodup_cons.mp hnd).1
    have ha2 : a = [(n0, n1), (n1, n0)] := by
      rw [ha]
      unfold objInsert
      simp [hne]
    subst ha2
    refine ⟨?_, ?_, ?_⟩
    · intro m hm
      rcases List.mem_cons.mp hm with rfl | hm
      · simp [List.count_cons, hne]
      · have : m = n1 := by simpa using hm
        subst this
        simp [List.count_cons, Ne.symm hne]
    · intro m hm
      rcases List.mem_cons.mp hm with rfl | hm
      · simp [List.count_cons, hne]
      · have : m = n1 := by simpa using hm
        subst this
        simp [List.count_cons, Ne.symm hne]
    · intro p hp
      rcases List.mem_cons.mp hp with rfl | hp
      · exact hne
      · have : p = (n1, n0) := by simpa using hp
        subst this
        exact Ne.symm hne
  · obtain ⟨perm, ha, -, hpp, hnfp⟩ := createDerangement_big names g a hlt h2 h
    have hplen : perm.length = names.length := hpp.length_eq
    have hzip : a = names.zip perm := by rw [ha, buildAssignments_eq_zip names perm hnd]
    subst hzip
    have hkeys : (names.zip perm).map (fun p => p.1) = names :=
      List.map_fst_zip names perm (by omega)
    have hvals : (names.zip perm).map (fun p => p.2) = perm :=
      List.map_snd_zip names perm (by omega)
    refine ⟨?_, ?_, ?_⟩
    · intro m hm
      rw [hkeys]
      exact List.count_eq_one_of_mem hnd hm
    · intro m hm
      rw [hvals, hpp.count_eq]
      exact List.count_eq_one_of_mem hnd hm
    · intro p hp
      have hswap : p.swap ∈ perm.zip names := by
        rw [← List.zip_swap]
        exact List.mem_map_of_mem Prod.swap hp
      have := (List.any_eq_false.mp hnfp) p.swap hswap
      simp only [Prod.fst_swap, Prod.snd_swap, beq_iff_eq] at this
      exact fun he => this (he ▸ rfl)

theorem createDerangement_validate (names : List String) (g : Nat → Nat → Nat)
    (a : List (String × String)) (h2 : names.length ≠ 2)
    (h : createDerangement names g = .ok a) :
    validateAssignments a names = .ok () := by
  by_cases hlt : names.length < 2
  · unfold createDerangement at h
    rw [if_pos hlt] at h
    exact absurd h (by simp)
  · obtain ⟨perm, -, hv, -, -⟩ := createDerangement_big names g a hlt h2 h
    exact hv

/-! ### Relating the JSON validator on encoded assignments to the typed one -/

theorem jsSetSizeAux_map_str :
    ∀ n (l : List String), l.length ≤ n →
      jsSetSizeAux n (l.map Json.str) = l.toFinset.card := by
  intro n
  induction n with
  | zero =>
    intro l hl
    rw [Nat.le_zero, List.length_eq_zero] at hl
    subst hl
    simp [jsSetSizeAux]
  | succ n ih =>
    intro l hl
    cases l with
    | nil => simp [jsSetSizeAux]
    | cons h t =>
      rw [List.map_cons, jsSetSizeAux]
      have hfil : (List.map Json.str t).filter (fun w => !jsSameValueZero (Json.str h) w)
          = (t.filter (fun x => !(h == x))).map Json.str :=
        List.filter_map Json.str t
      rw [hfil, ih _ (le_trans (List.length_filter_le _ _) (Nat.le_of_succ_le_succ hl))]
      have hsub : (t.filter (fun x => !(h == x))).toFinset = t.toFinset.erase h := by
        ext x
        simp only [List.mem_toFinset, List.mem_filter, Finset.mem_erase,
          Bool.not_eq_eq_eq_not, Bool.not_true, beq_eq_false_iff_ne, ne_eq]
        constructor
        · rintro ⟨hx, hne⟩; exact ⟨fun he => hne he.symm, hx⟩
        · rintro ⟨hne, hx⟩; exact ⟨hx, fun he => hne he.symm⟩
      rw [hsub, List.toFinset_cons]
      by_cases hmem : h ∈ t
      · rw [Finset.insert_eq_self.mpr (List.mem_toFinset.mpr hmem)]
        have := Finset.card_erase_add_one (List.mem_toFinset.mpr hmem)
        omega
      · rw [Finset.erase_eq_of_not_mem (fun hc => hmem (List.mem_toFinset.mp hc)),
          Finset.card_insert_of_not_mem (fun hc => hmem (List.mem_toFinset.mp hc))]
        omega

theorem jsSetSize_map_str_dedup (l : List String) :
    jsSetSize (l.map Json.str) = l.dedup.length := by
  rw [jsSetSize, jsSetSizeAux_map_str (l.map Json.str).length l (by simp),
    List.card_toFinset]

theorem jsGetProp_encode (a : List (String × String)) (m : String) :
    jsGetProp (encodeAssignments a) m = (lookupA a m).map Json.str := by
  simp only [encodeAssignments, jsGetProp, lookupA, List.find?_map]
  have hp : ((fun p : String × Json => p.1 == m) ∘ fun p : String × String => (p.1, Json.str p.2))
      = fun p : String × String => p.1 == m := rfl
  rw [hp]
  cases a.find? (fun p => p.1 == m) <;> rfl

theorem jsonCheckMembers_encode (a : List (String × String)) :
    ∀ names, jsonCheckMembers (encodeAssignments a) names = checkMembers a names := by
  intro names
  induction names with
  | nil => rfl
  | cons name rest ih =>
    simp only [jsonCheckMembers, checkMembers, jsGetProp_encode]
    cases hl : lookupA a name with
    | none => rfl
    | some v =>
      simp only [Option.map_some]
      by_cases hv1 : v = ""
      · simp [hv1, jsTruthy]
      · by_cases hv2 : v = name
        · simp [hv1, hv2, jsTruthy, jsStrEq]
        · simp [hv1, hv2, jsTruthy, jsStrEq, ih]

theorem jsonValidate_encode_ok (a : List (String × String)) (names : List String)
    (h : validateAssignments a names = .ok ()) :
    jsonValidateAssignments (encodeAssignments a) names = .ok () := by
  obtain ⟨h1, h2, h3, h4⟩ := (validateAssignments_ok_iff a names).mp h
  have hcm : checkMembers a names = .ok () := (checkMembers_ok_iff a names).mpr h3
  show jsonValidateCore (encodeAssignments a) names = .ok ()
  have hkeys : jsKeys (encodeAssignments a) = a.map (fun p => p.1) := by
    simp [jsKeys, encodeAssignments]
  have hvals : jsValues (encodeAssignments a) = (a.map (fun p => p.2)).map Json.str := by
    simp [jsValues, encodeAssignments]
  unfold jsonValidateCore
  rw [hkeys, hvals, jsonCheckMembers_encode, hcm]
  dsimp only
  rw [jsSetSize_map_str_dedup]
  simp only [List.length_map] at h1 h2 h4 ⊢
  rw [if_neg (by simp [h1]), if_neg (by simp [h2]), if_neg (by simp [h4])]

/-! ### What a validated JSON assignment guarantees per member -/

theorem jsonCheckMembers_ok (aJ : Json) :
    ∀ names, jsonCheckMembers aJ names = .ok () →
      ∀ m ∈ names, ∃ v, jsGetProp aJ m = some v ∧ jsTruthy v = true ∧ jsStrEq v m = false := by
  intro names
  induction names with
  | nil => intro _ m hm; simp at hm
  | cons name rest ih =>
    intro h m hm
    simp only [jsonCheckMembers] at h
    cases hg : jsGetProp aJ name with
    | none => rw [hg] at h; exact absurd h (by simp)
    | some v =>
      rw [hg] at h
      dsimp only at h
      by_cases ht : jsTruthy v = true
      case neg =>
        have ht2 : jsTruthy v = false := Bool.eq_false_iff.mpr ht
        rw [if_pos (by simp [ht2])] at h
        exact absurd h (by simp)
      rw [if_neg (by simp [ht])] at h
      by_cases hs : jsStrEq v name = true
      case pos =>
        rw [if_pos hs] at h
        exact absurd h (by simp)
      rw [if_neg hs] at h
      rcases List.mem_cons.mp hm with rfl | hm
      · exact ⟨v, hg, ht, Bool.eq_false_iff.mpr hs⟩
      · exact ih h m hm

theorem jsonValidate_ok_members (aJ : Json) (names : List String)
    (h : jsonValidateAssignments aJ names = .ok ()) :
    ∀ m ∈ names, ∃ v, jsGetProp aJ m = some v ∧ jsTruthy v = true ∧ jsStrEq v m = false := by
  have hcore : jsonValidateCore aJ names = .ok () := by
    cases aJ <;> first
      | exact h
      | exact absurd h (by simp [jsonValidateAssignments])
  unfold jsonValidateCore at hcore
  by_cases h1 : (jsKeys aJ).length = names.length
  case neg => rw [if_pos (by simpa using h1)] at hcore; exact absurd hcore (by simp)
  rw [if_neg (by simpa using h1)] at hcore
  by_cases h2 : (jsValues aJ).length = names.length
  case neg => rw [if_pos (by simpa using h2)] at hcore; exact absurd hcore (by simp)
  rw [if_neg (by simpa using h2)] at hcore
  cases hc : jsonCheckMembers aJ names with
  | error e => rw [hc] at hcore; exact absurd hcore (by simp)
  | ok u =>
    cases u
    exact jsonCheckMembers_ok aJ names hc

/-! ### Object updates and field reads -/

theorem find?_objInsert_self (fields : List (String × Json)) (k : String) (v : Json) :
    (objInsert fields k v).find? (fun p => p.1 == k) = some (k, v) := by
  unfold objInsert
  by_cases hany : fields.any (fun p => p.1 == k) = true
  · rw [if_pos hany]
    induction fields with
    | nil => simp at hany
    | cons p rest ih =>
      simp only [List.map_cons]
      by_cases hp : (p.1 == k) = true
      · rw [if_pos hp]
        simp
      · rw [if_neg hp]
        rw [List.find?_cons_of_neg (p := fun q : String × Json => q.1 == k) _ (by simpa using hp)]
        apply ih
        simpa [hp] using hany
  · rw [if_neg hany]
    rw [List.find?_append, List.find?_eq_none.mpr, Option.none_or]
    · simp
    · intro p hp
      have := List.any_eq_false.mp (Bool.eq_false_iff.mpr hany) p hp
      simpa using this

theorem find?_objInsert_ne (fields : List (String × Json)) (k k2 : String) (v : Json)
    (hne : k2 ≠ k) :
    (objInsert fields k v).find? (fun p => p.1 == k2) = fields.find? (fun p => p.1 == k2) := by
  unfold objInsert
  by_cases hany : fields.any (fun p => p.1 == k) = true
  · rw [if_pos hany]
    induction fields with
    | nil => rfl
    | cons p rest ih =>
      simp only [List.map_cons]
      by_cases hp : (p.1 == k) = true
      · rw [if_pos hp]
        have hpk : p.1 = k := by simpa using hp
        rw [List.find?_cons_of_neg (p := fun q : String × Json => q.1 == k2) _ (by simp [Ne.symm hne]),
          List.find?_cons_of_neg (p := fun q : String × Json => q.1 == k2) _ (by simp [hpk, Ne.symm hne])]
        by_cases hrest : rest.any (fun p => p.1 == k) = true
        · exact ih hrest
        · rw [List.map_congr_left (g := fun q : String × Json => q) ?_, List.map_id']
          intro q hq
          have := List.any_eq_false.mp (Bool.eq_false_iff.mpr hrest) q hq
          simp [by simpa using this]
      · rw [if_neg hp]
        by_cases hp2 : (p.1 == k2) = true
        · rw [List.find?_cons_of_pos (p := fun q : String × Json => q.1 == k2) _ hp2,
            List.find?_cons_of_pos (p := fun q : String × Json => q.1 == k2) _ hp2]
        · rw [List.find?_cons_of_neg (p := fun q : String × Json => q.1 == k2) _ (by simpa using hp2),
            List.find?_cons_of_neg (p := fun q : String × Json => q.1 == k2) _ (by simpa using hp2)]
          apply ih
          simpa [hp] using hany
  · rw [if_neg hany]
    rw [List.find?_append]
    have h1 : ([(k, v)].find? (fun p => p.1 == k2)) = none := by simp [Ne.symm hne]
    rw [h1, Option.or_none]

theorem jsGetProp_objInsert_self (fields : List (String × Json)) (k : String) (v : Json) :
    jsGetProp (.obj (objInsert fields k v)) k = some v := by
  simp only [jsGetProp, find?_objInsert_self]
  rfl

theorem jsGetProp_objInsert_ne (fields : List (String × Json)) (k k2 : String) (v : Json)
    (hne : k2 ≠ k) :
    jsGetProp (.obj (objInsert fields k v)) k2 = jsGetProp (.obj fields) k2 := by
  simp only [jsGetProp, find?_objInsert_ne fields k k2 v hne]

theorem mkStateDoc_assignments (a : List (String × String)) :
    jsGetProp (mkStateDoc a) "assignments" = some (encodeAssignments a) := rfl

theorem mkStateDoc_names (a : List (String × String)) :
    jsGetProp (mkStateDoc a) "names" = some (.arr (NAMES.map Json.str)) := rfl

theorem mkStateDoc_revealed (a : List (String × String)) :
    jsGetProp (mkStateDoc a) "revealed" = some (.arr []) := rfl

/-! ### How `initState` treats stored documents -/

theorem freshRound_ok (g : Nat → Nat → Nat) (doc : Json) (store₁ : Store)
    (h : freshRound g = .ok (doc, store₁)) :
    ∃ a, createDerangement NAMES g = .ok a ∧ doc = mkStateDoc a ∧
      store₁ = some (some (mkStateDoc a)) := by
  unfold freshRound at h
  cases hc : createDerangement NAMES g with
  | error e => rw [hc] at h; exact absurd h (by simp)
  | ok a =>
    rw [hc] at h
    dsimp only at h
    cases h
    exact ⟨a, rfl, rfl, rfl⟩

theorem mkStateDoc_good (g : Nat → Nat → Nat) (a : List (String × String))
    (h : createDerangement NAMES g = .ok a) : GoodDoc (mkStateDoc a) := by
  have hval : validateAssignments a NAMES = .ok () :=
    createDerangement_validate NAMES g a (by decide) h
  exact ⟨rfl, encodeAssignments a, mkStateDoc_assignments a, rfl,
    jsonValidate_encode_ok a NAMES hval⟩

theorem initState_accepts (g : Nat → Nat → Nat) (doc : Json) (hGood : GoodDoc doc) :
    initState g false (some (some doc)) = .ok (doc, some (some doc)) := by
  obtain ⟨ht, aJ, hget, htA, hval⟩ := hGood
  simp [initState, loadState, ht, hget, htA, hval]

theorem initState_forceNew (g : Nat → Nat → Nat) (store : Store) :
    initState g true store = freshRound g := rfl

theorem initState_ok_good (g : Nat → Nat → Nat) (forceNew : Bool) (store : Store)
    (doc : Json) (store₁ : Store) (h : initState g forceNew store = .ok (doc, store₁)) :
    store₁ = some (some doc) ∧ GoodDoc doc := by
  unfold initState at h
  cases hld : (if forceNew then none else loadState store) with
  | none =>
    rw [hld] at h
    obtain ⟨a, hca, rfl, rfl⟩ := freshRound_ok g doc store₁ h
    exact ⟨rfl, mkStateDoc_good g a hca⟩
  | some state =>
    rw [hld] at h
    dsimp only at h
    by_cases ht : jsTruthy state = true
    case neg =>
      have ht2 : jsTruthy state = false := Bool.eq_false_iff.mpr ht
      rw [if_pos (by simp [ht2])] at h
      obtain ⟨a, hca, rfl, rfl⟩ := freshRound_ok g doc store₁ h
      exact ⟨rfl, mkStateDoc_good g a hca⟩
    rw [if_neg (by simp [ht])] at h
    cases hget : jsGetProp state "assignments" with
    | none =>
      rw [hget] at h
      obtain ⟨a, hca, rfl, rfl⟩ := freshRound_ok g doc store₁ h
      exact ⟨rfl, mkStateDoc_good g a hca⟩
    | some aJ =>
      rw [hget] at h
      dsimp only at h
      by_cases htA : jsTruthy aJ = true
      case neg =>
        have ht2 : jsTruthy aJ = false := Bool.eq_false_iff.mpr htA
        rw [if_pos (by simp [ht2])] at h
        obtain ⟨a, hca, rfl, rfl⟩ := freshRound_ok g doc store₁ h
        exact ⟨rfl, mkStateDoc_good g a hca⟩
      rw [if_neg (by simp [htA])] at h
      cases hval : jsonValidateAssignments aJ NAMES with
      | error e =>
        rw [hval] at h
        obtain ⟨a, hca, rfl, rfl⟩ := freshRound_ok g doc store₁ h
        exact ⟨rfl, mkStateDoc_good g a hca⟩
      | ok u =>
        cases u
        rw [hval] at h
        dsimp only at h
        cases h
        refine ⟨?_, ht, aJ, hget, htA, hval⟩
        cases forceNew with
        | true => simp at hld
        | false =>
          cases store with
          | none => simp [loadState] at hld
          | some o =>
            cases o with
            | none => simp [loadState] at hld
            | some d =>
              simp [loadState] at hld
              rw [hld]

theorem initState_stable (g g₂ : Nat → Nat → Nat) (store : Store) (doc : Json)
    (store₁ : Store) (h : initState g false store = .ok (doc, store₁)) :
    initState g₂ false store₁ = .ok (doc, store₁) := by
  obtain ⟨hs, hg⟩ := initState_ok_good g false store doc store₁ h
  subst hs
  exact initState_accepts g₂ doc hg

/-! ### Small helpers for the validator claims -/

theorem validate_not_ok (assignments : List (String × String)) (names : List String)
    (h : validateAssignments assignments names ≠ .ok ()) :
    ∃ e, validateAssignments assignments names = .error e := by
  cases hv : validateAssignments assignments names with
  | error e => exact ⟨e, rfl⟩
  | ok u => cases u; exact absurd hv h

theorem lookupA_of_mem (assignments : List (String × String)) (x y : String)
    (hknd : (assignments.map (fun p => p.1)).Nodup) (hmem : (x, y) ∈ assignments) :
    lookupA assignments x = some y := by
  induction assignments with
  | nil => simp at hmem
  | cons q rest ih =>
    rcases List.mem_cons.mp hmem with rfl | hmem
    · simp [lookupA]
    · have hq : q.1 ≠ x := by
        intro he
        have hxk : x ∈ rest.map (fun p => p.1) :=
          List.mem_map_of_mem (fun p => p.1) hmem
        exact (List.nodup_cons.mp hknd).1 (by simpa [he] using hxk)
      simp only [lookupA, List.find?_cons_of_neg (p := fun q : String × String => q.1 == x) _
        (by simpa using hq)]
      exact ih (List.nodup_cons.mp hknd).2 hmem

theorem mem_keys_of_lookupA (assignments : List (String × String)) (m v : String)
    (h : lookupA assignments m = some v) : m ∈ assignments.map (fun p => p.1) := by
  unfold lookupA at h
  cases hf : assignments.find? (fun p => p.1 == m) with
  | none => rw [hf] at h; cases h
  | some q =>
    have hq : q.1 = m := by simpa using List.find?_some hf
    exact hq ▸ List.mem_map_of_mem (fun p => p.1) (List.mem_of_find?_eq_some hf)

theorem nodup_of_dedup_length (l : List String)
    (h : l.dedup.length = l.length) : l.Nodup := by
  have : l.dedup = l := List.Sublist.eq_of_length (List.dedup_sublist l) h
  rw [← this]
  exact List.nodup_dedup l

/-- A concrete random oracle: on every attempt, index `i` draws `i - 1`,
which turns the Fisher-Yates pass into a cyclic rotation — a derangement of
any list of distinct names. -/
def rotG : Nat → Nat → Nat := fun _ i => i - 1

/-- The assignment `createDerangement NAMES rotG` produces (each member
gifts the previous member of the list). -/
def demoAssignment : List (String × String) :=
  [("Anni", "Paul"), ("Ben", "Anni"), ("Beni", "Ben"), ("Daniel", "Beni"),
   ("Elisa", "Daniel"), ("Till", "Elisa"), ("Dustin", "Till"), ("Johann", "Dustin"),
   ("Lara", "Johann"), ("Marvin", "Lara"), ("Paul", "Marvin")]

/-! ### Claims -/

/-- **C1**: for every ordered list of at least two unique member names,
whenever `createDerangement` returns normally — for any outcome of the
random source — the returned assignment is a derangement: every member
appears exactly once as a key, every member appears exactly once as a
value, and no key maps to itself. -/
theorem claim1_generator_derangement (names : List String) (g : Nat → Nat → Nat)
    (a : List (String × String)) (hlen : 2 ≤ names.length) (hnd : names.Nodup)
    (h : createDerangement names g = .ok a) : isDerangement a names :=
  createDerangement_isDerangement names g a hnd h

theorem claim1_generator_derangement_witness :
    2 ≤ (["A", "B", "C"] : List String).length ∧ (["A", "B", "C"] : List String).Nodup ∧
    createDerangement ["A", "B", "C"] rotG = .ok [("A", "C"), ("B", "A"), ("C", "B")] ∧
    isDerangement [("A", "C"), ("B", "A"), ("C", "B")] ["A", "B", "C"] :=
  ⟨by decide, by decide, by rfl,
    claim1_generator_derangement ["A", "B", "C"] rotG _ (by decide) (by decide) (by rfl)⟩

/-- **C2**: `validateAssignments` performs its five checks in the stated
order with distinct failure reasons — key count first (with its own
reason), value count, per-member presence, self-assignment, duplicate
giftees — and rejects every mapping missing a key for some member, every
mapping with a duplicate value, and every mapping containing an entry
`x → x` (under the JS-object facts that member names and object keys are
unique).  The final conjunct characterizes exactly when all five checks
pass. -/
theorem claim2_validator_five_checks (assignments : List (String × String))
    (names : List String) (hnd : names.Nodup)
    (hknd : (assignments.map (fun p => p.1)).Nodup) :
    ((assignments.map (fun p => p.1)).length ≠ names.length →
        validateAssignments assignments names = .error .keyCountMismatch) ∧
    (∀ m ∈ names, lookupA assignments m = none →
        ∃ e, validateAssignments assignments names = .error e) ∧
    (¬(assignments.map (fun p => p.2)).Nodup →
        ∃ e, validateAssignments assignments names = .error e) ∧
    (∀ x, (x, x) ∈ assignments →
        ∃ e, validateAssignments assignments names = .error e) ∧
    (validateAssignments assignments names = .ok () ↔
      ((assignments.map (fun p => p.1)).length = names.length ∧
       (assignments.map (fun p => p.2)).length = names.length ∧
       (∀ m ∈ names, ∃ v, lookupA assignments m = some v ∧ v ≠ "" ∧ v ≠ m) ∧
       (assignments.map (fun p => p.2)).dedup.length =
         (assignments.map (fun p => p.2)).length)) := by
  refine ⟨?_, ?_, ?_, ?_, validateAssignments_ok_iff assignments names⟩
  · intro h1
    unfold validateAssignments
    rw [if_pos h1]
  · intro m hm hnone
    apply validate_not_ok
    intro hok
    obtain ⟨-, -, h3, -⟩ := (validateAssignments_ok_iff assignments names).mp hok
    obtain ⟨v, hv, -⟩ := h3 m hm
    rw [hnone] at hv
    cases hv
  · intro hdup
    apply validate_not_ok
    intro hok
    obtain ⟨-, -, -, h4⟩ := (validateAssignments_ok_iff assignments names).mp hok
    exact hdup (nodup_of_dedup_length _ h4)
  · intro x hx
    apply validate_not_ok
    intro hok
    obtain ⟨h1, -, h3, -⟩ := (validateAssignments_ok_iff assignments names).mp hok
    by_cases hxn : x ∈ names
    · obtain ⟨v, hv, -, hvx⟩ := h3 x hxn
      rw [lookupA_of_mem assignments x x hknd hx] at hv
      cases hv
      exact hvx rfl
    · have hsub : names.toFinset ⊆ (assignments.map (fun p => p.1)).toFinset := by
        intro m hm
        obtain ⟨v, hv, -⟩ := h3 m (List.mem_toFinset.mp hm)
        exact List.mem_toFinset.mpr (mem_keys_of_lookupA assignments m v hv)
      have hcards : (assignments.map (fun p => p.1)).toFinset.card ≤ names.toFinset.card := by
        rw [List.card_toFinset, List.card_toFinset, hknd.dedup, hnd.dedup, h1]
      have heq : names.toFinset = (assignments.map (fun p => p.1)).toFinset :=
        Finset.eq_of_subset_of_card_le hsub hcards
      have hxk : x ∈ (assignments.map (fun p => p.1)).toFinset :=
        List.mem_toFinset.mpr (List.mem_map_of_mem (fun p => p.1) hx)
      exact hxn (List.mem_toFinset.mp (heq ▸ hxk))

theorem claim2_validator_five_checks_witness :
    (["A", "B"] : List String).Nodup ∧
    (([("A", "B"), ("B", "A")] : List (String × String)).map (fun p => p.1)).Nodup ∧
    ((([("A", "B"), ("B", "A")] : List (String × String)).map (fun p => p.1)).length ≠
        (["A", "B"] : List String).length →
      validateAssignments [("A", "B"), ("B", "A")] ["A", "B"] = .error .keyCountMismatch) ∧
    (validateAssignments [("A", "B"), ("B", "A")] ["A", "B"] = .ok () ↔
      ((([("A", "B"), ("B", "A")] : List (String × String)).map (fun p => p.1)).length =
          (["A", "B"] : List String).length ∧
       (([("A", "B"), ("B", "A")] : List (String × String)).map (fun p => p.2)).length =
          (["A", "B"] : List String).length ∧
       (∀ m ∈ (["A", "B"] : List String), ∃ v,
          lookupA [("A", "B"), ("B", "A")] m = some v ∧ v ≠ "" ∧ v ≠ m) ∧
       (([("A", "B"), ("B", "A")] : List (String × String)).map (fun p => p.2)).dedup.length =
         (([("A", "B"), ("B", "A")] : List (String × String)).map (fun p => p.2)).length)) :=
  ⟨by decide, by decide,
    (claim2_validator_five_checks [("A", "B"), ("B", "A")] ["A", "B"]
      (by decide) (by decide)).1,
    (claim2_validator_five_checks [("A", "B"), ("B", "A")] ["A", "B"]
      (by decide) (by decide)).2.2.2.2⟩

/-- **C6**: for every name that is not a member of the configured member
set and every round state (absent, unparsable, partially or fully revealed,
or arbitrary), the reveal operation fails with the invalid-member 400
response and leaves the store untouched. -/
theorem claim6_invalid_member (g : Nat → Nat → Nat) (name : String) (store : Store)
    (h : name ∉ NAMES) : drawHandler g name store = (.invalidName, store) := by
  unfold drawHandler
  rw [if_pos (by simp [h])]

theorem claim6_invalid_member_witness :
    "Zoe" ∉ NAMES ∧
    drawHandler rotG "Zoe" none = (.invalidName, none) ∧
    drawHandler rotG "Zoe" (some none) = (.invalidName, some none) :=
  ⟨by decide, claim6_invalid_member rotG "Zoe" none (by decide),
    claim6_invalid_member rotG "Zoe" (some none) (by decide)⟩

/-- **C10**: `initState` validates only the `assignments` field of a loaded
persisted document: every truthy document whose truthy `assignments` value
passes validation against the member list is returned unchanged and not
re-persisted, with no constraint on — and no repair of — its `names` or
`revealed` fields (they may be missing, of the wrong shape, or inconsistent
with the configured member list). -/
theorem claim10_only_assignments_validated (g : Nat → Nat → Nat) (doc aJson : Json)
    (ht : jsTruthy doc = true) (hget : jsGetProp doc "assignments" = some aJson)
    (htA : jsTruthy aJson = true) (hval : jsonValidateAssignments aJson NAMES = .ok ()) :
    initState g false (some (some doc)) = .ok (doc, some (some doc)) :=
  initState_accepts g doc ⟨ht, aJson, hget, htA, hval⟩

/-- A stored document whose `names` field is a number and whose `revealed`
field is missing entirely, but whose `assignments` field validates. -/
def oddDoc : Json :=
  .obj [("assignments", encodeAssignments demoAssignment), ("names", .num 7)]

theorem claim10_only_assignments_validated_witness :
    jsTruthy oddDoc = true ∧
    jsGetProp oddDoc "assignments" = some (encodeAssignments demoAssignment) ∧
    jsTruthy (encodeAssignments demoAssignment) = true ∧
    jsonValidateAssignments (encodeAssignments demoAssignment) NAMES = .ok () ∧
    initState rotG false (some (some oddDoc)) = .ok (oddDoc, some (some oddDoc)) :=
  ⟨rfl, rfl, rfl, by rfl,
    claim10_only_assignments_validated rotG oddDoc (encodeAssignments demoAssignment)
      rfl rfl rfl (by rfl)⟩

theorem freshRound_eq (g : Nat → Nat → Nat) (a : List (String × String))
    (hgen : createDerangement NAMES g = .ok a) :
    freshRound g = .ok (mkStateDoc a, some (some (mkStateDoc a))) := by
  unfold freshRound
  rw [hgen]
  rfl

theorem initState_not_truthy (g : Nat → Nat → Nat) (doc : Json)
    (ht : jsTruthy doc = false) :
    initState g false (some (some doc)) = freshRound g := by
  simp [initState, loadState, ht]

theorem initState_no_assignments (g : Nat → Nat → Nat) (doc : Json)
    (hnone : jsGetProp doc "assignments" = none) :
    initState g false (some (some doc)) = freshRound g := by
  cases ht : jsTruthy doc with
  | false => exact initState_not_truthy g doc ht
  | true => simp [initState, loadState, ht, hnone]

theorem initState_assignments_falsy (g : Nat → Nat → Nat) (doc aJson : Json)
    (hget : jsGetProp doc "assignments" = some aJson) (htA : jsTruthy aJson = false) :
    initState g false (some (some doc)) = freshRound g := by
  cases ht : jsTruthy doc with
  | false => exact initState_not_truthy g doc ht
  | true => simp [initState, loadState, ht, hget, htA]

theorem initState_invalid (g : Nat → Nat → Nat) (doc aJson : Json) (e : Err)
    (hget : jsGetProp doc "assignments" = some aJson)
    (hvalerr : jsonValidateAssignments aJson NAMES = .error e) :
    initState g false (some (some doc)) = freshRound g := by
  cases ht : jsTruthy doc with
  | false => exact initState_not_truthy g doc ht
  | true =>
    cases htA : jsTruthy aJson with
    | false => exact initState_assignments_falsy g doc aJson hget htA
    | true => simp [initState, loadState, ht, hget, htA, hvalerr]

/-- **C4**: loading never throws — a missing or unparsable store yields
absent — and `initState` self-heals: when the persisted document is absent,
lacks a (truthy) `assignments` field, or fails validation, it transparently
builds and persists a fresh round (provided generation itself succeeds)
instead of surfacing the load or validation error to the caller. -/
theorem claim4_load_selfheal (g : Nat → Nat → Nat) (a : List (String × String))
    (hgen : createDerangement NAMES g = .ok a) :
    loadState none = none ∧
    loadState (some none) = none ∧
    initState g false none = .ok (mkStateDoc a, some (some (mkStateDoc a))) ∧
    initState g false (some none) = .ok (mkStateDoc a, some (some (mkStateDoc a))) ∧
    (∀ doc, jsGetProp doc "assignments" = none →
      initState g false (some (some doc)) = .ok (mkStateDoc a, some (some (mkStateDoc a)))) ∧
    (∀ doc aJson e, jsGetProp doc "assignments" = some aJson →
      jsonValidateAssignments aJson NAMES = .error e →
      initState g false (some (some doc)) = .ok (mkStateDoc a, some (some (mkStateDoc a)))) := by
  have hfresh := freshRound_eq g a hgen
  refine ⟨rfl, rfl, hfresh, hfresh, ?_, ?_⟩
  · intro doc hnone
    rw [initState_no_assignments g doc hnone]
    exact hfresh
  · intro doc aJson e hget hvalerr
    rw [initState_invalid g doc aJson e hget hvalerr]
    exact hfresh

theorem claim4_load_selfheal_witness :
    createDerangement NAMES rotG = .ok demoAssignment ∧
    loadState none = none ∧
    initState rotG false none =
      .ok (mkStateDoc demoAssignment, some (some (mkStateDoc demoAssignment))) ∧
    initState rotG false (some none) =
      .ok (mkStateDoc demoAssignment, some (some (mkStateDoc demoAssignment))) :=
  ⟨by rfl, (claim4_load_selfheal rotG demoAssignment (by rfl)).1,
    (claim4_load_selfheal rotG demoAssignment (by rfl)).2.2.1,
    (claim4_load_selfheal rotG demoAssignment (by rfl)).2.2.2.1⟩

/-- **C9**: the defensive missing-assignment branch of the reveal handler is
unreachable for valid member names: for every store and every name in the
configured member set, the handler never answers with the
no-assignment 400 response, because the round `initState` ensures maps every
member to a truthy giftee. -/
theorem jsIsNull_false_of_truthy (v : Json) (h : jsTruthy v = true) :
    jsIsNull v = false := by
  cases v <;> simp_all [jsTruthy, jsIsNull]

theorem claim9_no_assignment_unreachable (g : Nat → Nat → Nat) (name : String)
    (store : Store) (hmem : name ∈ NAMES) :
    (drawHandler g name store).1 ≠ DrawResult.noAssignment := by
  have hne : name ≠ "" := by
    intro he
    subst he
    revert hmem
    decide
  unfold drawHandler
  rw [if_neg (by simp [hne, hmem])]
  cases hinit : initState g false store with
  | error e => simp
  | ok p =>
    obtain ⟨state, s₁⟩ := p
    obtain ⟨-, ht, aJ, hget, htA, hval⟩ := initState_ok_good g false store state s₁ hinit
    obtain ⟨v, hgv, htv, -⟩ := jsonValidate_ok_members aJ NAMES hval name hmem
    dsimp only
    rw [hget]
    dsimp only
    rw [if_neg (by simp [jsIsNull_false_of_truthy aJ htA]), hgv]
    dsimp only
    rw [if_neg (by simp [htv])]
    cases jsIncludesName (jsGetProp state "revealed") name with
    | none => simp
    | some already =>
      cases already with
      | true => simp
      | false =>
        dsimp only
        cases pushRevealed state name with
        | none => simp
        | some state₂ => simp

theorem claim9_no_assignment_unreachable_witness :
    "Anni" ∈ NAMES ∧ (drawHandler rotG "Anni" none).1 ≠ DrawResult.noAssignment :=
  ⟨by decide, claim9_no_assignment_unreachable rotG "Anni" none (by decide)⟩

theorem getPublicState_good (g : Nat → Nat → Nat) (doc : Json) (ns rs : List Json)
    (hGood : GoodDoc doc)
    (hn : jsGetProp doc "names" = some (.arr ns))
    (hr : jsGetProp doc "revealed" = some (.arr rs)) :
    getPublicState g (some (some doc)) =
      (.ok ⟨ns, ns.filter (fun x => !(rs.any (fun w => jsSameValueZero w x))), some (.arr rs)⟩,
        some (some doc)) := by
  unfold getPublicState
  rw [initState_accepts g doc hGood]
  dsimp only
  rw [hr]
  dsimp only [jsSetElems]
  rw [hn]

/-- **C5**: whenever `initState` is forced to create a new round (as the
reset endpoint does), the resulting round is built from the configured
member list with a freshly generated assignment satisfying the derangement
invariants and an empty revealed set, and it is persisted; consequently,
immediately after a reset the available members equal the full member set
and the revealed set is empty. -/
theorem claim5_reset_round (g : Nat → Nat → Nat) (store : Store)
    (a : List (String × String)) (hgen : createDerangement NAMES g = .ok a) :
    resetHandler g store = (.reset, some (some (mkStateDoc a))) ∧
    isDerangement a NAMES ∧
    (∀ g₂, getPublicState g₂ (some (some (mkStateDoc a))) =
      (.ok ⟨NAMES.map Json.str, NAMES.map Json.str, some (.arr [])⟩,
        some (some (mkStateDoc a)))) := by
  have hfresh := freshRound_eq g a hgen
  refine ⟨?_, createDerangement_isDerangement NAMES g a (by decide) hgen, ?_⟩
  · unfold resetHandler
    rw [initState_forceNew, hfresh]
  · intro g₂
    rw [getPublicState_good g₂ (mkStateDoc a) (NAMES.map Json.str) []
      (mkStateDoc_good g a hgen) (mkStateDoc_names a) (mkStateDoc_revealed a)]
    simp

theorem claim5_reset_round_witness :
    resetHandler rotG none = (.reset, some (some (mkStateDoc demoAssignment))) ∧
    isDerangement demoAssignment NAMES ∧
    getPublicState rotG (some (some (mkStateDoc demoAssignment))) =
      (.ok ⟨NAMES.map Json.str, NAMES.map Json.str, some (.arr [])⟩,
        some (some (mkStateDoc demoAssignment))) :=
  ⟨(claim5_reset_round rotG none demoAssignment (by rfl)).1,
   (claim5_reset_round rotG none demoAssignment (by rfl)).2.1,
   (claim5_reset_round rotG none demoAssignment (by rfl)).2.2 rotG⟩

/-- **C7**: for every round document, the public-state projection of
`GET /api/state` is the record of members, available members and revealed
members, in which the available members are exactly the member list minus
the revealed set — a filter of the member list, hence preserving the
original member order — and which is independent of the stored
giver-to-giftee assignment, so the assignment is never included. -/
theorem claim7_public_projection (g : Nat → Nat → Nat) (doc : Json) (ns rs : List Json)
    (hGood : GoodDoc doc)
    (hn : jsGetProp doc "names" = some (.arr ns))
    (hr : jsGetProp doc "revealed" = some (.arr rs)) :
    getPublicState g (some (some doc)) =
      (.ok ⟨ns, ns.filter (fun x => !(rs.any (fun w => jsSameValueZero w x))), some (.arr rs)⟩,
        some (some doc)) ∧
    (ns.filter (fun x => !(rs.any (fun w => jsSameValueZero w x)))).Sublist ns ∧
    (∀ x, x ∈ ns.filter (fun x => !(rs.any (fun w => jsSameValueZero w x))) ↔
      (x ∈ ns ∧ (rs.any (fun w => jsSameValueZero w x)) = false)) ∧
    (∀ doc₂, GoodDoc doc₂ → jsGetProp doc₂ "names" = some (.arr ns) →
      jsGetProp doc₂ "revealed" = some (.arr rs) →
      (getPublicState g (some (some doc₂))).1 = (getPublicState g (some (some doc))).1) := by
  refine ⟨getPublicState_good g doc ns rs hGood hn hr, List.filter_sublist _, ?_, ?_⟩
  · intro x
    simp [List.mem_filter]
  · intro doc₂ hGood₂ hn₂ hr₂
    rw [getPublicState_good g doc ns rs hGood hn hr,
      getPublicState_good g doc₂ ns rs hGood₂ hn₂ hr₂]

theorem claim7_public_projection_witness :
    getPublicState rotG (some (some (mkStateDoc demoAssignment))) =
      (.ok ⟨NAMES.map Json.str,
        (NAMES.map Json.str).filter
          (fun x => !(([] : List Json).any (fun w => jsSameValueZero w x))),
        some (.arr [])⟩, some (some (mkStateDoc demoAssignment))) :=
  (claim7_public_projection rotG (mkStateDoc demoAssignment) (NAMES.map Json.str) []
    (mkStateDoc_good rotG demoAssignment (by rfl)) rfl rfl).1

theorem pushRevealed_some (state : Json) (name : String) (state₂ : Json)
    (h : pushRevealed state name = some state₂) :
    ∃ fields xs, state = .obj fields ∧ jsGetProp state "revealed" = some (.arr xs) ∧
      state₂ = .obj (objInsert fields "revealed" (.arr (xs ++ [.str name]))) := by
  cases state with
  | obj fields =>
    unfold pushRevealed at h
    dsimp only at h
    cases hr : jsGetProp (.obj fields) "revealed" with
    | none => rw [hr] at h; exact absurd h (by simp)
    | some rv =>
      rw [hr] at h
      cases rv with
      | arr xs =>
        dsimp only at h
        cases h
        exact ⟨fields, xs, rfl, rfl, rfl⟩
      | null => exact absurd h (by simp)
      | bool b => exact absurd h (by simp)
      | num n => exact absurd h (by simp)
      | str s => exact absurd h (by simp)
      | obj o => exact absurd h (by simp)
  | null => cases h
  | bool b => cases h
  | num n => cases h
  | str s => cases h
  | arr xs => cases h

theorem loadState_some (store : Store) (doc : Json) (h : loadState store = some doc) :
    store = some (some doc) := by
  cases store with
  | none => simp [loadState] at h
  | some o =>
    cases o with
    | none => simp [loadState] at h
    | some d =>
      simp only [loadState] at h
      rw [h]

theorem initState_disj (g : Nat → Nat → Nat) (store : Store) (state : Json) (s₁ : Store)
    (h : initState g false store = .ok (state, s₁)) :
    (s₁ = store ∧ loadState store = some state) ∨
    (∃ a, createDerangement NAMES g = .ok a ∧ state = mkStateDoc a ∧
      s₁ = some (some (mkStateDoc a))) := by
  unfold initState at h
  cases hld : (if false then none else loadState store) with
  | none =>
    rw [hld] at h
    obtain ⟨a, hca, h1, h2⟩ := freshRound_ok g state s₁ h
    exact Or.inr ⟨a, hca, h1, h2⟩
  | some st =>
    rw [hld] at h
    dsimp only at h
    by_cases ht : jsTruthy st = true
    case neg =>
      rw [if_pos (by simp [Bool.eq_false_iff.mpr ht])] at h
      obtain ⟨a, hca, h1, h2⟩ := freshRound_ok g state s₁ h
      exact Or.inr ⟨a, hca, h1, h2⟩
    rw [if_neg (by simp [ht])] at h
    cases hget : jsGetProp st "assignments" with
    | none =>
      rw [hget] at h
      obtain ⟨a, hca, h1, h2⟩ := freshRound_ok g state s₁ h
      exact Or.inr ⟨a, hca, h1, h2⟩
    | some aJ =>
      rw [hget] at h
      dsimp only at h
      by_cases htA : jsTruthy aJ = true
      case neg =>
        rw [if_pos (by simp [Bool.eq_false_iff.mpr htA])] at h
        obtain ⟨a, hca, h1, h2⟩ := freshRound_ok g state s₁ h
        exact Or.inr ⟨a, hca, h1, h2⟩
      rw [if_neg (by simp [htA])] at h
      cases hval : jsonValidateAssignments aJ NAMES with
      | error e =>
        rw [hval] at h
        obtain ⟨a, hca, h1, h2⟩ := freshRound_ok g state s₁ h
        exact Or.inr ⟨a, hca, h1, h2⟩
      | ok u =>
        cases u
        rw [hval] at h
        dsimp only at h
        cases h
        refine Or.inl ⟨rfl, ?_⟩
        simpa using hld

/-- A reveal by a giver already present in the round: returns the stored
giftee with `alreadyRevealed = true` and does not write the store. -/
theorem drawHandler_already (g : Nat → Nat → Nat) (name : String) (doc aJ gv : Json)
    (hvn : ¬(name == "" || !(NAMES.contains name)) = true)
    (ht : jsTruthy doc = true) (hget : jsGetProp doc "assignments" = some aJ)
    (htA : jsTruthy aJ = true) (hval : jsonValidateAssignments aJ NAMES = .ok ())
    (hgv : jsGetProp aJ name = some gv) (htv : jsTruthy gv = true)
    (hinc : jsIncludesName (jsGetProp doc "revealed") name = some true) :
    drawHandler g name (some (some doc)) = (.drawn name gv true, some (some doc)) := by
  unfold drawHandler
  rw [if_neg hvn, initState_accepts g doc ⟨ht, aJ, hget, htA, hval⟩]
  dsimp only
  rw [hget]
  dsimp only
  rw [if_neg (by simp [jsIsNull_false_of_truthy aJ htA]), hgv]
  dsimp only
  rw [if_neg (by simp [htv]), hinc]
  rfl

theorem revealedCount_mkStateDoc (a : List (String × String)) :
    revealedCount (some (some (mkStateDoc a))) = 0 := by
  simp [revealedCount, revealedItems, mkStateDoc_revealed]

/-- **C3**: reveal is idempotent per giver.  If a reveal succeeds with some
giftee, then every subsequent reveal for the same giver returns the identical
giftee with `alreadyRevealed = true` and leaves the store exactly as it is;
the stored revealed list grows by at most one entry; and a first reveal — one
performed while the stored round does not list the giver as revealed —
reports `alreadyRevealed = false`. -/
theorem claim3_reveal_idempotent (g g₂ : Nat → Nat → Nat) (name : String) (store : Store)
    (giftee : Json) (b : Bool) (store₁ : Store)
    (h : drawHandler g name store = (.drawn name giftee b, store₁)) :
    drawHandler g₂ name store₁ = (.drawn name giftee true, store₁) ∧
    revealedCount store₁ ≤ revealedCount store + 1 ∧
    (∀ doc xs, store = some (some doc) → jsGetProp doc "revealed" = some (.arr xs) →
      (xs.any (fun w => jsSameValueZero w (.str name))) = false → b = false) := by
  unfold drawHandler at h
  by_cases hvn : (name == "" || !(NAMES.contains name)) = true
  · rw [if_pos hvn] at h
    exact absurd h (by simp)
  rw [if_neg hvn] at h
  cases hinit : initState g false store with
  | error e => rw [hinit] at h; exact absurd h (by simp)
  | ok p =>
    obtain ⟨state, s₁⟩ := p
    rw [hinit] at h
    dsimp only at h
    obtain ⟨hs₁, ht, aJ, hget, htA, hval⟩ := initState_ok_good g false store state s₁ hinit
    rw [hget] at h
    dsimp only at h
    rw [if_neg (by simp [jsIsNull_false_of_truthy aJ htA])] at h
    cases hgv : jsGetProp aJ name with
    | none => rw [hgv] at h; exact absurd h (by simp)
    | some gv =>
      rw [hgv] at h
      dsimp only at h
      by_cases htv : jsTruthy gv = true
      case neg =>
        rw [if_pos (by simp [Bool.eq_false_iff.mpr htv])] at h
        exact absurd h (by simp)
      rw [if_neg (by simp [htv])] at h
      cases hinc : jsIncludesName (jsGetProp state "revealed") name with
      | none => rw [hinc] at h; exact absurd h (by simp)
      | some already =>
        rw [hinc] at h
        dsimp only at h
        cases already with
        | true =>
          rw [if_pos rfl] at h
          cases h
          refine ⟨?_, ?_, ?_⟩
          · rw [hs₁]
            exact drawHandler_already g₂ name state aJ giftee hvn ht hget htA hval hgv htv hinc
          · rcases initState_disj g store state store₁ hinit with ⟨hss, -⟩ | ⟨a, -, -, hss⟩
            · rw [hss]; exact Nat.le_succ _
            · rw [hss, revealedCount_mkStateDoc]; exact Nat.zero_le _
          · intro doc xs hstore hr hany
            exfalso
            rcases initState_disj g store state store₁ hinit with ⟨-, hld⟩ | ⟨a, -, hstate, -⟩
            · subst hstore
              simp only [loadState] at hld
              cases hld
              rw [hr] at hinc
              dsimp only [jsIncludesName] at hinc
              rw [hany] at hinc
              cases hinc
            · rw [hstate, mkStateDoc_revealed] at hinc
              simp [jsIncludesName] at hinc
        | false =>
          rw [if_neg (by simp)] at h
          cases hpush : pushRevealed state name with
          | none => rw [hpush] at h; exact absurd h (by simp)
          | some state₂ =>
            rw [hpush] at h
            dsimp only [saveState] at h
            cases h
            obtain ⟨fields, xs0, hstf, hrev, hs2⟩ := pushRevealed_some state name state₂ hpush
            have hget₂ : jsGetProp state₂ "assignments" = some aJ := by
              rw [hs2, jsGetProp_objInsert_ne fields "revealed" "assignments" _ (by decide),
                ← hstf]
              exact hget
            have ht₂ : jsTruthy state₂ = true := by rw [hs2]; rfl
            have hrev₂ : jsGetProp state₂ "revealed" = some (.arr (xs0 ++ [.str name])) := by
              rw [hs2]
              exact jsGetProp_objInsert_self fields "revealed" _
            refine ⟨?_, ?_, ?_⟩
            · apply drawHandler_already g₂ name state₂ aJ giftee hvn ht₂ hget₂ htA hval hgv htv
              rw [hrev₂]
              dsimp only [jsIncludesName]
              simp [jsSameValueZero]
            · have hc₁ : revealedCount (some (some state₂)) = xs0.length + 1 := by
                simp [revealedCount, revealedItems, hrev₂]
              rcases initState_disj g store state s₁ hinit with ⟨-, hld⟩ | ⟨a, -, hstate, -⟩
              · have hst : store = some (some state) := loadState_some store state hld
                have hc₀ : revealedCount store = xs0.length := by
                  rw [hst]
                  simp [revealedCount, revealedItems, hrev]
                omega
              · rw [hstate, mkStateDoc_revealed] at hrev
                have hxs : xs0 = [] := by
                  injection hrev with he
                  injection he with he2
                  exact he2.symm
                rw [hxs] at hc₁
                simp only [List.length_nil] at hc₁
                omega
            · intro doc xs hstore hr hany
              rfl

/-- The stored document after Anni's first reveal in a fresh demo round. -/
def demoDoc2 : Json :=
  .obj [("names", .arr (NAMES.map Json.str)),
        ("assignments", encodeAssignments demoAssignment),
        ("revealed", .arr [Json.str "Anni"])]

theorem claim3_reveal_idempotent_witness :
    drawHandler rotG "Anni" (some (some demoDoc2)) =
      (.drawn "Anni" (Json.str "Paul") true, some (some demoDoc2)) ∧
    revealedCount (some (some demoDoc2)) ≤
      revealedCount (some (some (mkStateDoc demoAssignment))) + 1 ∧
    (∀ doc xs, some (some (mkStateDoc demoAssignment)) = some (some doc) →
      jsGetProp doc "revealed" = some (.arr xs) →
      (xs.any (fun w => jsSameValueZero w (.str "Anni"))) = false → false = false) :=
  claim3_reveal_idempotent rotG rotG "Anni" (some (some (mkStateDoc demoAssignment)))
    (Json.str "Paul") false (some (some demoDoc2)) (by rfl)

/-- **C8**: within a round — a store whose document `initState` accepts as
is — the revealed set is monotonic: the state-read and debug operations do
not touch the store at all, and a reveal only ever extends the stored
revealed list, so every giver already revealed stays revealed; no operation
short of a reset removes a giver. -/
theorem claim8_revealed_monotonic (g : Nat → Nat → Nat) (doc : Json)
    (hGood : GoodDoc doc) :
    (getPublicState g (some (some doc))).2 = some (some doc) ∧
    (debugHandler g (some (some doc))).2 = some (some doc) ∧
    (∀ g₂ name, revealedItems (some (some doc)) ⊆
      revealedItems (drawHandler g₂ name (some (some doc))).2) := by
  refine ⟨?_, ?_, ?_⟩
  · unfold getPublicState
    rw [initState_accepts g doc hGood]
    dsimp only
    cases jsSetElems (jsGetProp doc "revealed") with
    | none => rfl
    | some revSet =>
      dsimp only
      cases jsGetProp doc "names" with
      | none => rfl
      | some nv => cases nv <;> rfl
  · unfold debugHandler
    rw [initState_accepts g doc hGood]
  · intro g₂ name
    unfold drawHandler
    by_cases hvn : (name == "" || !(NAMES.contains name)) = true
    · rw [if_pos hvn]
      exact List.Subset.refl _
    · rw [if_neg hvn, initState_accepts g₂ doc hGood]
      dsimp only
      obtain ⟨ht, aJ, hget, htA, hval⟩ := hGood
      rw [hget]
      dsimp only
      rw [if_neg (by simp [jsIsNull_false_of_truthy aJ htA])]
      cases hgv : jsGetProp aJ name with
      | none => exact List.Subset.refl _
      | some gv =>
        dsimp only
        by_cases htv : jsTruthy gv = true
        case neg =>
          rw [if_pos (by simp [Bool.eq_false_iff.mpr htv])]
          exact List.Subset.refl _
        rw [if_neg (by simp [htv])]
        cases hinc : jsIncludesName (jsGetProp doc "revealed") name with
        | none => exact List.Subset.refl _
        | some already =>
          dsimp only
          cases already with
          | true =>
            rw [if_pos rfl]
            exact List.Subset.refl _
          | false =>
            rw [if_neg (by simp)]
            cases hpush : pushRevealed doc name with
            | none => exact List.Subset.refl _
            | some doc₂ =>
              dsimp only [saveState]
              obtain ⟨fields, xs, hdf, hrev, hd2⟩ := pushRevealed_some doc name doc₂ hpush
              have hrev₂ : jsGetProp doc₂ "revealed" = some (.arr (xs ++ [.str name])) := by
                rw [hd2]
                exact jsGetProp_objInsert_self fields "revealed" _
              have h₁ : revealedItems (some (some doc)) = xs := by
                simp [revealedItems, hrev]
              have h₂ : revealedItems (some (some doc₂)) = xs ++ [.str name] := by
                simp [revealedItems, hrev₂]
              rw [h₁, h₂]
              exact List.subset_append_left _ _

theorem claim8_revealed_monotonic_witness :
    (getPublicState rotG (some (some (mkStateDoc demoAssignment)))).2 =
      some (some (mkStateDoc demoAssignment)) ∧
    revealedItems (some (some (mkStateDoc demoAssignment))) ⊆
      revealedItems (drawHandler rotG "Anni" (some (some (mkStateDoc demoAssignment)))).2 :=
  ⟨(claim8_revealed_monotonic rotG (mkStateDoc demoAssignment)
      (mkStateDoc_good rotG demoAssignment (by rfl))).1,
   (claim8_revealed_monotonic rotG (mkStateDoc demoAssignment)
      (mkStateDoc_good rotG demoAssignment (by rfl))).2.2 rotG "Anni"⟩
